import Mathlib

/-!
Verification development for the Mnemosync conversation/vision analysis core.

This file shallowly embeds the analysis pipeline of the repository:

* `parseDateFromText` — the natural-language date resolver of the
  conversation recorder (the spec's `DateExpressionParser`);
* the tiered scene / conversation analyzers of `gemini.ts` and the
  conversation recorder (the spec's `TieredAnalyzer`);
* the date/action persistence loops and the hybrid regex date merge of
  `analyzeConversation` (the spec's `EventReconciler`);
* the real-time task extraction of `handleSpeechResult` (the spec's
  `HeuristicExtractor`);
* the speaker relabeling and `TRANSCRIPT:` correction of conversation
  turns; and the model-name mapping of `getGeminiModel`.

Dates are modelled at day granularity: a JavaScript `Date` is an `Int`
counting days since 1970-01-01 (a Thursday); time-of-day is abstracted
away (every property treated here is at whole-day granularity).
Strings are handled as `List Char`; JavaScript `toLowerCase`,
`includes`, `trim`, `split` and the specific regular expressions used by
the source are hand-compiled into executable Lean functions.
-/

namespace Mnemosync

/-- An apostrophe character, used to build string literals containing one. -/
def apos : Char := Char.ofNat 39

/-- Lowercase a character list, as JavaScript `String.prototype.toLowerCase`
does for the ASCII texts handled here. -/
def lowerL (cs : List Char) : List Char := cs.map Char.toLower

/-- Test `startsL pat cs`: `pat` is an initial segment of `cs` (exact characters). -/
def startsL : List Char → List Char → Bool
  | [], _ => true
  | _ :: _, [] => false
  | p :: ps, c :: cs => p == c && startsL ps cs

/-- Test `subL pat cs`: `pat` occurs contiguously inside `cs`; models JavaScript
`String.prototype.includes`. -/
def subL (pat : List Char) : List Char → Bool
  | [] => pat.isEmpty
  | c :: cs => startsL pat (c :: cs) || subL pat cs

/-- Case-insensitive anchored match: if lowercasing the first `pat.length`
characters of `cs` yields `pat` (given lowercase), return the rest. -/
def ciAt : List Char → List Char → Option (List Char)
  | [], cs => some cs
  | _ :: _, [] => none
  | p :: ps, c :: cs => if c.toLower == p then ciAt ps cs else none

/-- JavaScript regex word character (`\w`): ASCII letter, digit or underscore. -/
def wordChar (c : Char) : Bool := c.isAlpha || c.isDigit || c == '_'

/-- Whitespace, modelling the regex class `\s` for the texts handled here. -/
def wsChar (c : Char) : Bool := c.isWhitespace

/-- A `\b` word boundary holds between an optional previous character and the
remaining input: exactly one side is a word character (absent = non-word). -/
def atBoundary (prev : Option Char) (cs : List Char) : Bool :=
  let pw := match prev with | none => false | some p => wordChar p
  let nw := match cs with | [] => false | c :: _ => wordChar c
  pw != nw

/-- Boundary `\b` after a match that necessarily ended in a word character: the next
character is absent or not a word character. -/
def boundaryAfter (cs : List Char) : Bool :=
  match cs with
  | [] => true
  | c :: _ => !wordChar c

/-- Split off the maximal leading whitespace run; returns its length and the
rest (models a greedy `\s*` / `\s+` whose continuation cannot start with
whitespace). -/
def wsSplit : List Char → Nat × List Char
  | [] => (0, [])
  | c :: cs =>
    if wsChar c then
      let (n, r) := wsSplit cs
      (n + 1, r)
    else (0, c :: cs)

/-- Trim whitespace from both ends of a character list (JavaScript
`String.prototype.trim`). -/
def trimL (cs : List Char) : List Char :=
  ((cs.dropWhile wsChar).reverse.dropWhile wsChar).reverse

/-- The maximal leading run of characters of class `[a-zA-Z\s]`. -/
def alphaSpaceRun (cs : List Char) : List Char :=
  cs.takeWhile (fun c => c.isAlpha || wsChar c)

end Mnemosync

namespace Mnemosync

/-! ### Day-granularity model of JavaScript `Date`

`daysFromCivil` / `civilFromDays` convert between proleptic-Gregorian
`(year, month 1..12, day)` triples and epoch day numbers; out-of-range
month/day arguments overflow arithmetically exactly as
`new Date(year, month, day)` normalizes them.  Lean's `Int` `/` and `%`
are floor division and nonnegative remainder, which the formulas below
rely on. -/

/-- Epoch day number of civil `(y, m, d)` (month 1-based; `m` or `d` out of
range overflow into adjacent months/years as JavaScript `Date` does). -/
def daysFromCivil (y m d : Int) : Int :=
  let yy := if m ≤ 2 then y - 1 else y
  let era := yy / 400
  let yoe := yy - era * 400
  let mp := (m + 9) % 12
  let doy := (153 * mp + 2) / 5 + d - 1
  let doe := yoe * 365 + yoe / 4 - yoe / 100 + doy
  era * 146097 + doe - 719468

/-- Civil `(year, month 1..12, day 1..31)` of an epoch day number. -/
def civilFromDays (z : Int) : Int × Int × Int :=
  let z' := z + 719468
  let era := z' / 146097
  let doe := z' - era * 146097
  let yoe := (doe - doe / 1460 + doe / 36524 - doe / 146096) / 365
  let y := yoe + era * 400
  let doy := doe - (365 * yoe + yoe / 4 - yoe / 100)
  let mp := (5 * doy + 2) / 153
  let d := doy - (153 * mp + 2) / 5 + 1
  let m := if mp < 10 then mp + 3 else mp - 9
  (if m ≤ 2 then y + 1 else y, m, d)

/-- Model of `Date.prototype.getDay`: weekday index 0 (Sunday) .. 6 (Saturday);
day 0 (1970-01-01) was a Thursday (index 4). -/
def getDay (e : Int) : Int := (e + 4) % 7

/-- Model of `Date.prototype.getFullYear` on an epoch day. -/
def getFullYear (e : Int) : Int := (civilFromDays e).1

/-- Model of `d.setMonth(d.getMonth() + 1)`: same civil day-of-month in the next
month (day overflow normalized exactly as JavaScript does). -/
def addOneMonth (e : Int) : Int :=
  let c := civilFromDays e
  daysFromCivil c.1 (c.2.1 + 1) c.2.2

end Mnemosync

namespace Mnemosync

/-! ### `parseDateFromText` (the spec's `DateExpressionParser`)

Hand-compilation of the two date regular expressions of the source:

`/\b(jan(?:uary)?|...|dec(?:ember)?)\s*(\d{1,2})(?:st|nd|rd|th)?\b/i` and
`/\b(\d{1,2})(?:st|nd|rd|th)?\s*(jan(?:uary)?|...|dec(?:ember)?)\b/i`.

Month alternatives are listed in the regex's backtracking order (each
optional suffix tried present-first). -/

/-- Month-name alternatives of the source regexes, in match-priority order
(all lowercase; matching is case-insensitive). -/
def monthCands : List (List Char) :=
  ["january".toList, "jan".toList, "february".toList, "feb".toList,
   "march".toList, "mar".toList, "april".toList, "apr".toList,
   "may".toList, "june".toList, "jun".toList, "july".toList, "jul".toList,
   "august".toList, "aug".toList,
   "september".toList, "sept".toList, "sepember".toList, "sep".toList,
   "october".toList, "oct".toList, "november".toList, "nov".toList,
   "december".toList, "dec".toList]

/-- The `months` lookup table of the source (3-letter keys shown here are the
ones reachable through `substring(0, 3)`; the table also holds the long
names, kept for fidelity). -/
def monthsTable : List (List Char × Nat) :=
  [("jan".toList, 0), ("january".toList, 0), ("feb".toList, 1), ("february".toList, 1),
   ("mar".toList, 2), ("march".toList, 2), ("apr".toList, 3), ("april".toList, 3),
   ("may".toList, 4), ("jun".toList, 5), ("june".toList, 5), ("jul".toList, 6),
   ("july".toList, 6), ("aug".toList, 7), ("august".toList, 7), ("sep".toList, 8),
   ("sept".toList, 8), ("september".toList, 8), ("oct".toList, 9), ("october".toList, 9),
   ("nov".toList, 10), ("november".toList, 10), ("dec".toList, 11), ("december".toList, 11)]

/-- Association-list lookup on character-list keys. -/
def monthsLookup (k : List Char) : Option Nat :=
  (monthsTable.find? (fun p => p.1 == k)).map (·.2)

/-- Ordinal-suffix-plus-boundary tail `(?:st|nd|rd|th)?\b` after digits:
holds when some suffix matches case-insensitively with a word boundary
after it, or when the boundary holds with no suffix. -/
def ordBoundary (cs : List Char) : Bool :=
  (["st".toList, "nd".toList, "rd".toList, "th".toList].any fun suf =>
    match ciAt suf cs with
    | some r => boundaryAfter r
    | none => false)
  || boundaryAfter cs

/-- Numeric value of a decimal digit character. -/
def digitVal (c : Char) : Nat := c.toNat - 48

/-- Tail `\s*(\d\x7b1,2\x7d)(?:st|nd|rd|th)?\b` of the month-day regex after
the month name: skip whitespace, take one or two digits (greedy, two first),
then the ordinal/boundary tail.  Returns the day number. -/
def monthDayTail (cs : List Char) : Option Nat :=
  let (_, r) := wsSplit cs
  match r with
  | d1 :: rest1 =>
    if d1.isDigit then
      match rest1 with
      | d2 :: rest2 =>
        if d2.isDigit then
          if ordBoundary rest2 then some (digitVal d1 * 10 + digitVal d2)
          else if ordBoundary rest1 then some (digitVal d1)
          else none
        else if ordBoundary rest1 then some (digitVal d1) else none
      | [] => if ordBoundary [] then some (digitVal d1) else none
    else none
  | [] => none

/-- Try the month-day regex body at the current position (boundary already
checked): a month alternative, then `monthDayTail`.  Returns the matched
month alternative (lowercase) and the day. -/
def monthDayAt (cs : List Char) : Option (List Char × Nat) :=
  monthCands.foldr
    (fun cand acc =>
      match ciAt cand cs with
      | some r =>
        match monthDayTail r with
        | some day => some (cand, day)
        | none => acc
      | none => acc)
    none

/-- Leftmost match of the month-day regex over the whole text (`prev` is the
character before the current position, for the leading `\b`). -/
def monthDayScanAux (prev : Option Char) : List Char → Option (List Char × Nat)
  | [] => none
  | c :: rest =>
    match (if atBoundary prev (c :: rest) then monthDayAt (c :: rest) else none) with
    | some hit => some hit
    | none => monthDayScanAux (some c) rest

/-- Model of `text.match` on the month-day regex:
first match's (month alternative, day). -/
def monthDayScan (cs : List Char) : Option (List Char × Nat) :=
  monthDayScanAux none cs

/-- Optional ordinal suffix, `\s*`, a month alternative, then `\b` — the tail of the
day-month regex after its digits. -/
def dayMonthTail (cs : List Char) : Option (List Char) :=
  let tryMonth : List Char → Option (List Char) := fun r =>
    let (_, r') := wsSplit r
    monthCands.foldr
      (fun cand acc =>
        match ciAt cand r' with
        | some rest => if boundaryAfter rest then some cand else acc
        | none => acc)
      none
  match (["st".toList, "nd".toList, "rd".toList, "th".toList].foldr
      (fun suf acc =>
        match ciAt suf cs with
        | some r =>
          match tryMonth r with
          | some cand => some cand
          | none => acc
        | none => acc)
      none) with
  | some cand => some cand
  | none => tryMonth cs

/-- Try the day-month regex body at the current position: one or two digits
(greedy), then `dayMonthTail`.  Returns the day and the month alternative. -/
def dayMonthAt (cs : List Char) : Option (Nat × List Char) :=
  match cs with
  | d1 :: rest1 =>
    if d1.isDigit then
      match rest1 with
      | d2 :: rest2 =>
        if d2.isDigit then
          match dayMonthTail rest2 with
          | some cand => some (digitVal d1 * 10 + digitVal d2, cand)
          | none =>
            match dayMonthTail rest1 with
            | some cand => some (digitVal d1, cand)
            | none => none
        else
          match dayMonthTail rest1 with
          | some cand => some (digitVal d1, cand)
          | none => none
      | [] => none
    else none
  | [] => none

/-- Leftmost match of the day-month regex over the whole text. -/
def dayMonthScanAux (prev : Option Char) : List Char → Option (Nat × List Char)
  | [] => none
  | c :: rest =>
    match (if atBoundary prev (c :: rest) then dayMonthAt (c :: rest) else none) with
    | some hit => some hit
    | none => dayMonthScanAux (some c) rest

/-- Model of `text.match` on the day-month regex:
first match's (day, month alternative). -/
def dayMonthScan (cs : List Char) : Option (Nat × List Char) :=
  dayMonthScanAux none cs

/-- The `dayNames` array of the source, Sunday first. -/
def dayNamesL : List (List Char) :=
  ["sunday".toList, "monday".toList, "tuesday".toList, "wednesday".toList,
   "thursday".toList, "friday".toList, "saturday".toList]

/-- The source's weekday loop: first index `i` with `lower.includes(dayNames[i])`. -/
def findWeekdayAux (i : Nat) : List (List Char) → List Char → Option Nat
  | [], _ => none
  | d :: ds, lower => if subL d lower then some i else findWeekdayAux (i + 1) ds lower

/-- First weekday name (by index 0..6) contained in the lowercased text. -/
def findWeekday (lower : List Char) : Option Nat := findWeekdayAux 0 dayNamesL lower

/-- Computation `daysUntil = i - currentDay; if (daysUntil <= 0) daysUntil += 7`. -/
def weekdayDelta (i : Nat) (cur : Int) : Int :=
  let d := (i : Int) - cur
  if d ≤ 0 then d + 7 else d

/-- The guarded month/day resolution shared by the month-day and day-month
branches: look the month up, require `1 ≤ day ≤ 31`, build the date in the
current year and roll it one year forward if it lies strictly before `now`.
`none` means the guard failed and the source falls through to the next
branch. -/
def resolveMonthDay (cand : List Char) (day : Nat) (now : Int) : Option Int :=
  match monthsLookup (cand.take 3) with
  | some month =>
    if 1 ≤ day ∧ day ≤ 31 then
      let year := getFullYear now
      let target := daysFromCivil year ((month : Int) + 1) (day : Int)
      some (if target < now then daysFromCivil (year + 1) ((month : Int) + 1) (day : Int)
            else target)
    else none
  | none => none

/-- The source's `parseDateFromText(text)`, with the ambient `new Date()`
passed explicitly as `now` and the host's generic `new Date(string)` parser
passed as `stdParse` (it returns `none` where JavaScript yields an
`Invalid Date`).  Faithful to the source's branch order; note the source
tests `includes('tomorrow')` before `includes('day after tomorrow')`. -/
def parseDateFromText (stdParse : String → Option Int) (text : String) (now : Int) : Int :=
  let lower := lowerL text.toList
  if subL "today".toList lower then now
  else if subL "tomorrow".toList lower then now + 1
  else if subL "day after tomorrow".toList lower then now + 2
  else if subL "next week".toList lower then now + 7
  else if subL "next month".toList lower then addOneMonth now
  else
    match findWeekday lower with
    | some i => now + weekdayDelta i (getDay now)
    | none =>
      match (match monthDayScan text.toList with
             | some (cand, day) => resolveMonthDay cand day now
             | none => none) with
      | some d => d
      | none =>
        match (match dayMonthScan text.toList with
               | some (day, cand) => resolveMonthDay cand day now
               | none => none) with
        | some d => d
        | none =>
          match stdParse text with
          | some d => d
          | none => now

end Mnemosync

namespace Mnemosync

/-! ### Tiered analysis (`gemini.ts` `analyzeScene`, and the model-selection
part of `analyzeConversation`) — the spec's `TieredAnalyzer`.

A model handle is represented by the outcome of invoking it once:
`Except String α` (`.error msg` = the `generateContent`/parse pipeline threw
with message `msg`; this subsumes the `No valid JSON found in response` and
`JSON.parse` failures of `executeAnalysis`).  `Option` around a handle
models a null/absent model (`executeAnalysis` returns `null` without
invoking a null model; `if (backupModel)` skips an absent backup).  Each
analyzer also returns the ordered list of tiers whose model was actually
invoked (`generateContent` awaited), recorded exactly where the source
awaits a model. -/

/-- A fallback tier. -/
inductive Tier where
  | primary
  | secondary
  deriving DecidableEq, Repr, BEq

/-- The JSON object `analyzeScene`'s prompt requires a model to produce
(`name`/`relation` are "string or null"). -/
structure SceneFields where
  personIdentified : Bool
  name : Option String
  relation : Option String
  summary : String
  nudges : List String
  deriving DecidableEq, Repr

/-- The object `analyzeScene` returns.  JavaScript fields absent from an
object literal read as `undefined` (falsy); such absent boolean fields are
modelled as `false`. -/
structure SceneResult where
  personIdentified : Bool
  name : Option String
  relation : Option String
  summary : String
  isQuotaExceeded : Bool
  usedBackup : Bool
  nudges : List String
  deriving DecidableEq, Repr

/-- The source's rate-limit classification:
`msg.includes('429') || msg.toLowerCase().includes('quota')`. -/
def isQuotaMsg (msg : String) : Bool :=
  subL "429".toList msg.toList || subL "quota".toList (lowerL msg.toList)

/-- Model of `msg || <Unknown error>`: an empty message is falsy in JavaScript. -/
def orUnknown (msg : String) : String :=
  if msg = "" then "Unknown error" else msg

/-- Model of `analyzeScene(primaryModel, backupModel, ...)` of `gemini.ts`: try the
primary; on a throw classify the error, fall back to the backup when
present, and otherwise or on a second throw return the error object.
Result: the value `analyzeScene` resolves with (`none` = the JavaScript
`null` returned for a null primary model), paired with the invocation
trace. -/
def analyzeScene (primary : Option (Except String SceneFields))
    (backup : Option (Except String SceneFields)) :
    Option SceneResult × List Tier :=
  match primary with
  | none => (none, [])
  | some (Except.ok f) =>
    (some ⟨f.personIdentified, f.name, f.relation, f.summary, false, false, f.nudges⟩,
     [Tier.primary])
  | some (Except.error pe) =>
    let isQ := isQuotaMsg pe
    match backup with
    | some (Except.ok f) =>
      (some ⟨f.personIdentified, f.name, f.relation, f.summary, false, true, f.nudges⟩,
       [Tier.primary, Tier.secondary])
    | some (Except.error be) =>
      (some ⟨false, none, none, "Vision Error (All models): " ++ orUnknown be,
             isQ || isQuotaMsg be, false, []⟩,
       [Tier.primary, Tier.secondary])
    | none =>
      (some ⟨false, none, none,
             (if isQ then "Quota Exceeded: Please wait a minute before scanning again."
              else "Vision Error: " ++ orUnknown pe),
             isQ, false, []⟩,
       [Tier.primary])

/-- The model-selection ladder of `analyzeConversation` (primary →
backup → `generateMockResponse`): the raw response text it ends up
parsing, paired with the model-invocation trace.  `analyzeConversation`
returns early when `primaryModel` is null, so the primary handle is not
optional here; `mock` is the text `generateMockResponse` would produce. -/
def convResponse (primary : Except String String)
    (backup : Option (Except String String)) (mock : String) :
    String × List Tier :=
  match primary with
  | Except.ok r => (r, [Tier.primary])
  | Except.error _ =>
    match backup with
    | some (Except.ok r) => (r, [Tier.primary, Tier.secondary])
    | some (Except.error _) => (mock, [Tier.primary, Tier.secondary])
    | none => (mock, [Tier.primary])

/-- The model-name mapping of `getGeminiModel` in `gemini.ts`: the
"futuristic" names are both mapped to the real `gemini-1.5-flash`;
any other name is passed through. -/
def realModelName (modelName : String) : String :=
  if modelName = "gemini-3-flash-preview" then "gemini-1.5-flash"
  else if modelName = "gemini-2.5-flash-lite" then "gemini-1.5-flash"
  else modelName

end Mnemosync

namespace Mnemosync

/-! ### Real-time task extraction of `handleSpeechResult`
(the spec's `HeuristicExtractor`)

The source splits the transcript on `/\b(?:and|then|also)\b/i`, and per
trimmed segment runs two global regexes:

* the task regex
  ``\b([a-zA-Z\s]{3,30})\s+(on|at|by|for|this)\s+(TIME(?:\s+\d{1,2}(?:st|nd|rd|th)?)?)``
  with `TIME = (?:tomorrow|tonight|today|next\s+(?:week|month)|<weekday>|<month>)`,
  pushing `<calendar mark> (task) on (time)`;
* the action regex ``\b(?:remember to|don't forget to|remind me to)\s+([a-zA-Z\s]{3,40})``,
  pushing `<check mark> (capture)`.

The scanners below advance one character at a time (leftmost match), skip
over a found match (global `lastIndex` semantics), implement greedy
quantifiers by longest-first backtracking, and try alternation branches in
source order.  The source file stores the two marker emoji as UTF-8
(displayed as mojibake in some viewers); they are the calendar and check
mark characters used below. -/

/-- The calendar-emoji marker the source prefixes date tasks with. -/
def calMark : String := "📅 "

/-- The check-emoji marker the source prefixes action tasks with. -/
def checkMark : String := "✅ "

/-- Conjunction alternatives of the segment splitter, in source order. -/
def conjWords : List (List Char) := ["and".toList, "then".toList, "also".toList]

/-- Match of `\b(?:and|then|also)\b` at the current position (the leading
boundary is checked by the caller); returns the match length. -/
def conjTry (cs : List Char) : Option Nat :=
  conjWords.foldr
    (fun w acc =>
      match ciAt w cs with
      | some r => if boundaryAfter r then some w.length else acc
      | none => acc)
    none

/-- Model of the segment splitter `transcript.split`: one-character scan with a
skip counter consuming a just-matched separator. -/
def splitConjAux (skip : Nat) (prev : Option Char) (cur : List Char) :
    List Char → List (List Char)
  | [] => [cur.reverse]
  | c :: rest =>
    match skip with
    | n + 1 => splitConjAux n (some c) cur rest
    | 0 =>
      match (if atBoundary prev (c :: rest) then conjTry (c :: rest) else none) with
      | some len => cur.reverse :: splitConjAux (len - 1) (some c) [] rest
      | none => splitConjAux 0 (some c) (c :: cur) rest

/-- Segments of a transcript, separators removed. -/
def splitConj (cs : List Char) : List (List Char) := splitConjAux 0 none [] cs

/-- The preposition alternatives `(on|at|by|for|this)`, in source order. -/
def prepWords : List (List Char) :=
  ["on".toList, "at".toList, "by".toList, "for".toList, "this".toList]

/-- Weekday and month alternatives of the `timeTerms` alternation, in source
order (after the three literals and the `next …` form). -/
def timeWordCands : List (List Char) :=
  ["monday".toList, "tuesday".toList, "wednesday".toList, "thursday".toList,
   "friday".toList, "saturday".toList, "sunday".toList,
   "january".toList, "february".toList, "march".toList, "april".toList,
   "may".toList, "june".toList, "july".toList, "august".toList,
   "september".toList, "october".toList, "november".toList, "december".toList,
   "jan".toList, "feb".toList, "mar".toList, "apr".toList, "may".toList,
   "jun".toList, "jul".toList, "aug".toList, "sep".toList, "oct".toList,
   "nov".toList, "dec".toList]

/-- Match length of the `timeTerms` alternation
`(?:tomorrow|tonight|today|next\s+(?:week|month)|<weekdays>|<months>)` at the
current position (no trailing boundary in the source regex). -/
def timeTermTry (cs : List Char) : Option Nat :=
  let lits : List (List Char) := ["tomorrow".toList, "tonight".toList, "today".toList]
  let fromCands : List (List Char) → Option Nat := fun cands =>
    cands.foldr
      (fun w acc => match ciAt w cs with | some _ => some w.length | none => acc)
      none
  match fromCands lits with
  | some n => some n
  | none =>
    match ciAt "next".toList cs with
    | some r =>
      let (n, r') := wsSplit r
      if n = 0 then fromCands timeWordCands
      else
        match ciAt "week".toList r' with
        | some _ => some (4 + n + 4)
        | none =>
          match ciAt "month".toList r' with
          | some _ => some (4 + n + 5)
          | none => fromCands timeWordCands
    | none => fromCands timeWordCands

/-- Length of the optional trailing `(?:\s+\d{1,2}(?:st|nd|rd|th)?)?` after a
time term (greedy: present when it can match, two digits before one, suffix
present before absent); `0` when absent. -/
def optDayLen (cs : List Char) : Nat :=
  let (n, r) := wsSplit cs
  if n = 0 then 0
  else
    match r with
    | d1 :: rest1 =>
      if d1.isDigit then
        match rest1 with
        | d2 :: rest2 =>
          if d2.isDigit then
            let sufLen := (["st".toList, "nd".toList, "rd".toList, "th".toList].foldr
              (fun suf acc => match ciAt suf rest2 with | some _ => suf.length | none => acc) 0)
            n + 2 + sufLen
          else
            let sufLen := (["st".toList, "nd".toList, "rd".toList, "th".toList].foldr
              (fun suf acc => match ciAt suf rest1 with | some _ => suf.length | none => acc) 0)
            n + 1 + sufLen
        | [] => n + 1
      else 0
    | [] => 0

/-- Attempt of the task-regex body at the current position with a group-1
length of exactly `k`: `\s+`, a preposition, `\s+`, a time term, and the
optional day part.  Returns (group 1, group 3, total match length). -/
def taskTryAt (cs : List Char) (k : Nat) : Option (List Char × List Char × Nat) :=
  let g1 := cs.take k
  if (g1.all fun c => c.isAlpha || wsChar c) && g1.length = k then
    let rest := cs.drop k
    let (n1, r1) := wsSplit rest
    if n1 = 0 then none
    else
      match (prepWords.foldr
          (fun w acc => match ciAt w r1 with
            | some _ => some w.length
            | none => acc)
          none) with
      | some pl =>
        let r2 := r1.drop pl
        let (n2, r3) := wsSplit r2
        if n2 = 0 then none
        else
          match timeTermTry r3 with
          | some tl =>
            let extra := optDayLen (r3.drop tl)
            some (g1, r3.take (tl + extra), k + n1 + pl + n2 + tl + extra)
          | none => none
      | none => none
  else none

/-- Greedy `{3,30}` group 1: try lengths `k = 30, 29, …, 3` (longest first),
returning the first task-regex match at this position. -/
def taskTryLens : List Char → List Nat → Option (List Char × List Char × Nat)
  | _, [] => none
  | cs, k :: ks =>
    match taskTryAt cs k with
    | some hit => some hit
    | none => taskTryLens cs ks

/-- The task-regex match attempt at one position (leading `\b` checked by the
caller). -/
def taskTry (cs : List Char) : Option (List Char × List Char × Nat) :=
  taskTryLens cs ((List.range 28).map (fun j => 30 - j))

/-- Global scan of the task regex over one segment: leftmost matches,
resuming after each match. -/
def taskScanAux (skip : Nat) (prev : Option Char) :
    List Char → List (List Char × List Char)
  | [] => []
  | c :: rest =>
    match skip with
    | n + 1 => taskScanAux n (some c) rest
    | 0 =>
      match (if atBoundary prev (c :: rest) then taskTry (c :: rest) else none) with
      | some (g1, g3, len) => (g1, g3) :: taskScanAux (len - 1) (some c) rest
      | none => taskScanAux 0 (some c) rest

/-- All (group 1, group 3) pairs the task regex yields on a segment. -/
def taskScan (cs : List Char) : List (List Char × List Char) := taskScanAux 0 none cs

/-- The action trigger phrases, in source order (the second one contains an
apostrophe). -/
def actionPhrases : List (List Char) :=
  ["remember to".toList,
   ("don" ++ apos.toString ++ "t forget to").toList,
   "remind me to".toList]

/-- Attempt of the action-regex body at one position: a trigger phrase,
`\s+`, then a greedy `([a-zA-Z\s]{3,40})` capture (nothing follows it, so
the capture is the maximal class run clipped to 40, required ≥ 3).
Returns (capture, total match length). -/
def actionTry (cs : List Char) : Option (List Char × Nat) :=
  actionPhrases.foldr
    (fun ph acc =>
      match ciAt ph cs with
      | some r =>
        let (n, r') := wsSplit r
        if n = 0 then acc
        else
          let cap := (alphaSpaceRun r').take 40
          if cap.length ≥ 3 then some (cap, ph.length + n + cap.length) else acc
      | none => acc)
    none

/-- Global scan of the action regex over one segment. -/
def actionScanAux (skip : Nat) (prev : Option Char) : List Char → List (List Char)
  | [] => []
  | c :: rest =>
    match skip with
    | n + 1 => actionScanAux n (some c) rest
    | 0 =>
      match (if atBoundary prev (c :: rest) then actionTry (c :: rest) else none) with
      | some (cap, len) => cap :: actionScanAux (len - 1) (some c) rest
      | none => actionScanAux 0 (some c) rest

/-- All group-1 captures the action regex yields on a segment. -/
def actionScan (cs : List Char) : List (List Char) := actionScanAux 0 none cs

/-- The stopword filter of the source:
`taskName.length > 2 && !['what', 'when', 'how', 'going'].includes(taskName.toLowerCase())`. -/
def taskNameOk (taskName : List Char) : Bool :=
  taskName.length > 2 &&
    !(["what".toList, "when".toList, "how".toList, "going".toList].contains
        (lowerL taskName))

/-- The `foundTasks` list of `handleSpeechResult`: per trimmed nonempty
segment, the filtered task matches (`<calendar mark> (task) on (time)`,
group 1 and group 3 trimmed) followed by the action matches
(`<check mark> (capture trimmed)`). -/
def foundTasks (transcript : String) : List String :=
  (splitConj transcript.toList).flatMap fun seg =>
    let cl := trimL seg
    if cl.isEmpty then []
    else
      ((taskScan cl).filterMap fun p =>
        let taskName := trimL p.1
        let timeInfo := trimL p.2
        if taskNameOk taskName then
          some (calMark ++ String.mk taskName ++ " on " ++ String.mk timeInfo)
        else none)
      ++ (actionScan cl).map fun cap => checkMark ++ String.mk (trimL cap)

/-- The date mentions among the found tasks (calendar-marked, marker
stripped). -/
def dateMentions (transcript : String) : List String :=
  (foundTasks transcript).filterMap fun t =>
    if startsL calMark.toList t.toList then some (String.mk (t.toList.drop 2)) else none

/-- The action mentions among the found tasks (check-marked, marker
stripped). -/
def actionMentions (transcript : String) : List String :=
  (foundTasks transcript).filterMap fun t =>
    if startsL checkMark.toList t.toList then some (String.mk (t.toList.drop 2)) else none

end Mnemosync

namespace Mnemosync

/-! ### Date/action persistence and the hybrid regex merge of
`analyzeConversation` (the spec's `EventReconciler`)

After parsing the response, `analyzeConversation`
* merges regex-found date strings into the `DATES:` section text via
  JavaScript `Set`s (`[...new Set(xs)]` = first-occurrence de-duplication);
* splits the `DATES:` / `ACTIONS:` section text on `/\n|,/`, keeps lines
  with nonempty trim, strips a leading bullet/emoji marker from each, and
  persists one record per line with `addDate` (no de-duplication in this
  persistence loop).  Record ids come from `generateId` (random, not
  modelled). -/

/-- First-occurrence de-duplication, as `[...new Set(xs)]`. -/
def dedupFirstAux (seen : List String) : List String → List String
  | [] => []
  | x :: xs =>
    if x ∈ seen then dedupFirstAux seen xs
    else x :: dedupFirstAux (x :: seen) xs

/-- Model of `[...new Set(xs)]`. -/
def dedupFirst (xs : List String) : List String := dedupFirstAux [] xs

/-- The source's `uniqueRegexDates`: the regex-found date strings, trimmed and
de-duplicated. -/
def uniqueRegexDates (regexMatches : List String) : List String :=
  dedupFirst (regexMatches.map fun s => String.mk (trimL s.toList))

/-- Split a character list at every `\n` or `,` (each separator one
character), as `s.split(/\n|,/)`. -/
def splitNlComma : List Char → List (List Char)
  | [] => [[]]
  | c :: cs =>
    if c == '\n' || c == ',' then [] :: splitNlComma cs
    else
      match splitNlComma cs with
      | [] => [[c]]
      | seg :: segs => (c :: seg) :: segs

/-- Split at every `,` only, as `s.split(',')`. -/
def splitComma : List Char → List (List Char)
  | [] => [[]]
  | c :: cs =>
    if c == ',' then [] :: splitComma cs
    else
      match splitComma cs with
      | [] => [[c]]
      | seg :: segs => (c :: seg) :: segs

/-- The merged dates list of the hybrid enhancement, given the trimmed
`DATES:` section text captured from the response (`none` when the response
had no `DATES:` match) and the regex matches found in the conversation
text.  Mirrors lines 321–349 of the recorder: when the section exists and
does not read "none", `existingDateArray` (split on commas, trimmed,
nonempty) is concatenated with `uniqueRegexDates` and de-duplicated through
one `Set`. -/
def combinedDatesList (geminiDates : Option String) (regexMatches : List String) :
    List String :=
  let uniq := uniqueRegexDates regexMatches
  match geminiDates with
  | some ex =>
    let ext := trimL ex.toList
    if subL "none".toList (lowerL ext) then uniq
    else
      let existingArr :=
        ((splitComma ext).map (fun l => String.mk (trimL l))).filter
          (fun d => d ≠ "")
      dedupFirst (existingArr ++ uniq)
  | none => uniq

/-- Model of the bullet-marker strip applied to each line:
strip one leading dash or marker emoji together with the following
whitespace. -/
def stripMarker : List Char → List Char
  | [] => []
  | c :: rest =>
    if c == '-' || c == '📅' || c == '✅' then rest.dropWhile wsChar
    else c :: rest

/-- A record persisted by `addDate` (`id` from `generateId` not modelled;
the source stores the parsed event date both as `date` and as
`createdAt`). -/
structure StoredEvent where
  date : Int
  event : String
  type : String
  deriving DecidableEq, Repr

/-- The lines of a section the persistence loop iterates: split on
`/\n|,/`, keep those whose trim is nonempty (JavaScript
`.filter(l => l.trim())`). -/
def mentionLines (sectionText : List Char) : List String :=
  ((splitNlComma sectionText).map String.mk).filter
    (fun l => trimL l.toList ≠ [])

/-- One iteration of the persistence loop: clean the line and build the
record with the parsed date. -/
def persistLine (stdParse : String → Option Int) (now : Int) (kind : String)
    (line : String) : StoredEvent :=
  let cleaned := String.mk (trimL (stripMarker line.toList))
  let parsed := parseDateFromText stdParse cleaned now
  ⟨parsed, cleaned, kind⟩

/-- The records persisted for a `DATES:` or `ACTIONS:` section text: nothing
when the trimmed text is empty or contains "none" (case-insensitive);
otherwise one record per kept line — the loop performs no de-duplication. -/
def persistSection (stdParse : String → Option Int) (now : Int) (kind : String)
    (sectionRaw : String) : List StoredEvent :=
  let t := trimL sectionRaw.toList
  if t = [] ∨ subL "none".toList (lowerL t) = true then []
  else (mentionLines t).map (persistLine stdParse now kind)

/-- The date-section persistence (`type: 'appointment'`). -/
def persistDates (stdParse : String → Option Int) (now : Int) (sectionRaw : String) :
    List StoredEvent :=
  persistSection stdParse now "appointment" sectionRaw

/-- The action-section persistence (`type: 'reminder'`). -/
def persistActions (stdParse : String → Option Int) (now : Int) (sectionRaw : String) :
    List StoredEvent :=
  persistSection stdParse now "reminder" sectionRaw

end Mnemosync

namespace Mnemosync

/-! ### Conversation turns: post-hoc speaker relabeling and `TRANSCRIPT:`
correction -/

/-- A `ConversationEntry` of the recorder; the timestamp is opaque here. -/
structure ConvEntry where
  speaker : String
  text : String
  timestamp : Int
  deriving DecidableEq, Repr

/-- The visitor-name relabeling effect: once `visitorInfo.name` is known
(nonempty and not the placeholder), every entry whose speaker is
`"Visitor"` gets the name as its speaker; nothing else changes. -/
def relabelVisitor (name : String) (entries : List ConvEntry) : List ConvEntry :=
  if name ≠ "" ∧ name ≠ "the visitor" then
    entries.map fun e =>
      ⟨if e.speaker = "Visitor" then name else e.speaker, e.text, e.timestamp⟩
  else entries

/-- Match of `/^(.+?):\s*"(.*)"$/` against a transcript line: the shortest
nonempty prefix followed by `:` whose remainder is whitespace, an opening
quote, anything (greedily ending at the final quote), and a closing quote at
end of line.  Returns (group 1, group 2). -/
def transLineAt (g1rev : List Char) : List Char → Option (List Char × List Char)
  | [] => none
  | c :: rest =>
    let tailTry : Option (List Char × List Char) :=
      if c == ':' && !g1rev.isEmpty then
        let (_, r) := wsSplit rest
        match r with
        | q :: body =>
          if q == '"' then
            match body.reverse with
            | last :: revInit =>
              if last == '"' then some (g1rev.reverse, revInit.reverse) else none
            | [] => none
          else none
        | [] => none
      else none
    match tailTry with
    | some hit => some hit
    | none => transLineAt (c :: g1rev) rest

/-- Match a transcript line against the speaker/text pattern, returning
(group 1, group 2). -/
def parseTransLine (line : String) : Option (List Char × List Char) :=
  transLineAt [] line.toList

/-- The `TRANSCRIPT:` correction of `analyzeConversation`: for each index
present in both lists, a line matching the speaker/text pattern overwrites
the entry's speaker and text (both trimmed); the timestamp is left as it
was, and unmatched lines or missing indices leave the entry unchanged. -/
def transcriptCorrect (lines : List String) (convs : List ConvEntry) : List ConvEntry :=
  (convs.enum).map fun p =>
    match lines[p.1]? with
    | some line =>
      match parseTransLine line with
      | some (sp, tx) => ⟨String.mk (trimL sp), String.mk (trimL tx), p.2.timestamp⟩
      | none => p.2
    | none => p.2

end Mnemosync

namespace Mnemosync

/-- The `quotaExceeded` flag an `analyzeScene` caller reads from the result
(an absent field or a null result reads as falsy). -/
def quotaFlag (p b : Option (Except String SceneFields)) : Bool :=
  match (analyzeScene p b).1 with
  | some r => r.isQuotaExceeded
  | none => false

/-- C9: both futuristic tier names resolve to the identical underlying model
name, so the primary and backup tiers are instances of the same model. -/
theorem getGeminiModel_same_model :
    realModelName "gemini-3-flash-preview" = "gemini-1.5-flash" ∧
    realModelName "gemini-2.5-flash-lite" = "gemini-1.5-flash" := by
  constructor <;> rfl

/-- C2 (divergence witness): on input "day after tomorrow" the code returns
`referenceNow + 1` for every reference date and every host date parser,
because the `includes('tomorrow')` branch is tested first and "tomorrow" is
a substring of "day after tomorrow" — the `+ 2` branch is unreachable. -/
theorem parseDate_day_after_tomorrow_is_plus_one
    (stdParse : String → Option Int) (now : Int) :
    parseDateFromText stdParse "day after tomorrow" now = now + 1 := by
  rfl

/-- C7: the heuristic extraction of `handleSpeechResult` on
"Remind me to take my pills and see the doctor on Friday" yields the date
mention "see the doctor on Friday" and an action mention containing
"take my pills". -/
theorem heuristic_extract_pills_doctor :
    dateMentions "Remind me to take my pills and see the doctor on Friday" =
      ["see the doctor on Friday"] ∧
    ∃ a, a ∈ actionMentions "Remind me to take my pills and see the doctor on Friday" ∧
      subL "take my pills".toList a.toList = true := by
  refine ⟨by decide, "take my pills", by decide, by decide⟩

end Mnemosync

namespace Mnemosync

/-- C1 (counterexample): a quota-classified primary failure (message "429")
followed by a successful secondary leaves `isQuotaExceeded` absent (falsy)
in the returned object, although an attempted tier's failure matched the
rate-limit pattern — the claimed "if and only if" fails in this case. -/
theorem quotaFlag_dropped_on_backup_success :
    isQuotaMsg "429" = true ∧
    (analyzeScene (some (Except.error "429"))
        (some (Except.ok ⟨true, some "Jane", some "Daughter", "ok", []⟩))).2 =
      [Tier.primary, Tier.secondary] ∧
    quotaFlag (some (Except.error "429"))
        (some (Except.ok ⟨true, some "Jane", some "Daughter", "ok", []⟩)) = false := by
  refine ⟨by decide, rfl, rfl⟩

/-- C1 (amended): `quotaExceeded` is reported true iff the call ends in an
error result — the primary failed and either no backup is configured or the
backup also failed — and at least one attempted tier's failure matched the
rate-limit pattern; a successful secondary drops the flag. -/
theorem quotaFlag_iff_error_result_with_quota
    (p b : Option (Except String SceneFields)) :
    quotaFlag p b = true ↔
      ∃ pe, p = some (Except.error pe) ∧
        ((b = none ∧ isQuotaMsg pe = true) ∨
         (∃ be, b = some (Except.error be) ∧ (isQuotaMsg pe || isQuotaMsg be) = true)) := by
  rcases p with _ | pf
  · simp [quotaFlag, analyzeScene]
  · rcases pf with f | pe <;> rcases b with _ | bf
    · simp [quotaFlag, analyzeScene]
    · rcases bf with g | be <;> simp [quotaFlag, analyzeScene]
    · simp [quotaFlag, analyzeScene]
    · rcases bf with g | be <;> simp [quotaFlag, analyzeScene]

/-- C1 (amended, witness): a quota-classified primary failure with no backup
configured reports the flag. -/
theorem quotaFlag_iff_witness :
    quotaFlag (some (Except.error "error 429: resource exhausted")) none = true :=
  (quotaFlag_iff_error_result_with_quota _ _).mpr
    ⟨"error 429: resource exhausted", rfl, Or.inl ⟨rfl, by decide⟩⟩

/-- C10: both error return paths of `analyzeScene` (primary failed with no
backup configured; both models failed) report no identified person, null
name and relation, and an empty nudge list. -/
theorem analyzeScene_error_paths_empty
    (pe : String) (b : Option (Except String SceneFields))
    (hb : b = none ∨ ∃ be, b = some (Except.error be)) :
    ∃ s q, (analyzeScene (some (Except.error pe)) b).1 =
      some ⟨false, none, none, s, q, false, []⟩ := by
  rcases hb with h | ⟨be, h⟩ <;> subst h <;> exact ⟨_, _, rfl⟩

/-- C10 (witness): the no-backup error path at a concrete failure. -/
theorem analyzeScene_error_paths_empty_witness :
    ∃ s q, (analyzeScene (some (Except.error "boom")) none).1 =
      some ⟨false, none, none, s, q, false, []⟩ :=
  analyzeScene_error_paths_empty "boom" none (Or.inl rfl)

/-- No tier occurs twice in the empty trace. -/
theorem countT_nil (t : Tier) : ([] : List Tier).count t ≤ 1 := by
  cases t <;> decide

/-- No tier occurs twice in the primary-only trace. -/
theorem countT_primary (t : Tier) : ([Tier.primary] : List Tier).count t ≤ 1 := by
  cases t <;> decide

/-- No tier occurs twice in the primary-then-secondary trace. -/
theorem countT_both (t : Tier) :
    ([Tier.primary, Tier.secondary] : List Tier).count t ≤ 1 := by
  cases t <;> decide

/-- C3: tier invocation discipline of both tiered analyzers: the secondary
is invoked exactly when the primary model was invoked and threw and a
secondary is configured, and no tier is ever invoked more than once in a
single call. -/
theorem tiered_invocation_discipline :
    (∀ b, (analyzeScene none b).2 = []) ∧
    (∀ f b, (analyzeScene (some (Except.ok f)) b).2 = [Tier.primary]) ∧
    (∀ pe bf, (analyzeScene (some (Except.error pe)) (some bf)).2 =
      [Tier.primary, Tier.secondary]) ∧
    (∀ pe, (analyzeScene (some (Except.error pe)) none).2 = [Tier.primary]) ∧
    (∀ p b t, ((analyzeScene p b).2).count t ≤ 1) ∧
    (∀ r b m, (convResponse (Except.ok r) b m).2 = [Tier.primary]) ∧
    (∀ pe bf m, (convResponse (Except.error pe) (some bf) m).2 =
      [Tier.primary, Tier.secondary]) ∧
    (∀ pe m, (convResponse (Except.error pe) none m).2 = [Tier.primary]) ∧
    (∀ p b m t, ((convResponse p b m).2).count t ≤ 1) := by
  refine ⟨fun b => rfl, fun f b => rfl, fun pe bf => ?_, fun pe => rfl,
          fun p b t => ?_, fun r b m => rfl, fun pe bf m => ?_,
          fun pe m => rfl, fun p b m t => ?_⟩
  · rcases bf with be | f <;> rfl
  · rcases p with _ | pf
    · exact countT_nil t
    · rcases pf with pe | f
      · rcases b with _ | bf
        · exact countT_primary t
        · rcases bf with be | g
          · exact countT_both t
          · exact countT_both t
      · exact countT_primary t
  · rcases bf with be | r <;> rfl
  · rcases p with pe | r
    · rcases b with _ | bf
      · exact countT_primary t
      · rcases bf with be | s
        · exact countT_both t
        · exact countT_both t
    · exact countT_primary t

end Mnemosync

namespace Mnemosync

/-- Strings already seen never reappear in `dedupFirstAux seen xs`. -/
theorem dedupFirstAux_not_mem (xs : List String) :
    ∀ seen x, x ∈ seen → x ∉ dedupFirstAux seen xs := by
  induction xs with
  | nil => intro seen x _ hx; simp [dedupFirstAux] at hx
  | cons a xs ih =>
    intro seen x hseen hx
    by_cases ha : a ∈ seen
    · rw [dedupFirstAux, if_pos ha] at hx
      exact ih seen x hseen hx
    · rw [dedupFirstAux, if_neg ha] at hx
      rcases List.mem_cons.mp hx with h | h
      · exact ha (h ▸ hseen)
      · exact ih (a :: seen) x (List.mem_cons_of_mem a hseen) h

/-- The function `dedupFirstAux` produces a duplicate-free list. -/
theorem dedupFirstAux_nodup (xs : List String) :
    ∀ seen, (dedupFirstAux seen xs).Nodup := by
  induction xs with
  | nil => intro seen; simp [dedupFirstAux]
  | cons a xs ih =>
    intro seen
    by_cases ha : a ∈ seen
    · rw [dedupFirstAux, if_pos ha]; exact ih seen
    · rw [dedupFirstAux, if_neg ha]
      exact List.nodup_cons.mpr
        ⟨dedupFirstAux_not_mem xs (a :: seen) a (List.mem_cons_self a seen), ih (a :: seen)⟩

/-- A deduplicated list `dedupFirst xs` is duplicate-free. -/
theorem dedupFirst_nodup (xs : List String) : (dedupFirst xs).Nodup :=
  dedupFirstAux_nodup xs []

/-- C4 (amended): in-batch de-duplication lives only in the hybrid regex
merge — the merged `DATES:` list is always free of exact duplicate strings
(first occurrences kept) — while the persistence loops themselves persist
one record per kept line, with no de-duplication of normalized labels. -/
theorem reconcile_dedup_only_in_merge :
    (∀ g ms, (combinedDatesList g ms).Nodup) ∧
    (∀ sp now kind s, (persistSection sp now kind s).length =
      if trimL s.toList = [] ∨ subL "none".toList (lowerL (trimL s.toList)) = true then 0
      else (mentionLines (trimL s.toList)).length) := by
  constructor
  · intro g ms
    rcases g with _ | ex
    · exact dedupFirst_nodup _
    · by_cases h : subL "none".toList (lowerL (trimL ex.toList)) = true
      · simp only [combinedDatesList, h, if_pos]
        exact dedupFirst_nodup _
      · simp only [combinedDatesList, h, if_neg]
        exact dedupFirst_nodup _
  · intro sp now kind s
    by_cases h : trimL s.toList = [] ∨ subL "none".toList (lowerL (trimL s.toList)) = true
    · simp only [persistSection]
      rw [if_pos h, if_pos h]
      rfl
    · simp only [persistSection]
      rw [if_neg h, if_neg h]
      exact List.length_map _ _

/-- C4 (counterexample): two action mentions with identical normalized
labels in one batch are both persisted — the claimed "exactly one persisted
event" fails. -/
theorem duplicate_actions_both_persisted :
    (persistActions (fun _ => none) 0 "take pills, take pills").map (·.event) =
      ["take pills", "take pills"] ∧
    (persistActions (fun _ => none) 0 "take pills, take pills").length = 2 := by
  exact ⟨by decide, by decide⟩

end Mnemosync

namespace Mnemosync

/-- C8 (counterexample): the `TRANSCRIPT:`-based correction overwrites a
turn's text — here "hi" becomes "hello" — so the claim that post-hoc
operations never modify a turn's text fails. -/
theorem transcript_correction_rewrites_text :
    transcriptCorrect ["Visitor: \"hello\""] [⟨"You", "hi", 5⟩] =
      [⟨"Visitor", "hello", 5⟩] ∧
    ("hello" : String) ≠ "hi" := by
  exact ⟨by decide, by decide⟩

/-- C8 (amended): visitor-name relabeling changes only speaker labels (text
and timestamp of every turn are preserved, in order), and the
`TRANSCRIPT:`-based correction may rewrite speaker and text but preserves
every turn's timestamp (and the number of turns). -/
theorem post_hoc_turn_updates_preserve :
    (∀ name entries, (relabelVisitor name entries).map (fun e => (e.text, e.timestamp)) =
        entries.map (fun e => (e.text, e.timestamp))) ∧
    (∀ lines convs, (transcriptCorrect lines convs).map (fun e => e.timestamp) =
        convs.map (fun e => e.timestamp)) := by
  constructor
  · intro name entries
    unfold relabelVisitor
    split
    · rw [List.map_map]; rfl
    · rfl
  · intro lines convs
    unfold transcriptCorrect
    rw [List.map_map]
    have h : ∀ p : Nat × ConvEntry,
        ((fun e => e.timestamp) ∘ fun p : Nat × ConvEntry =>
          match lines[p.1]? with
          | some line =>
            match parseTransLine line with
            | some (sp, tx) => (⟨String.mk (trimL sp), String.mk (trimL tx), p.2.timestamp⟩ : ConvEntry)
            | none => p.2
          | none => p.2) p = p.2.timestamp := by
      intro p
      rcases hl : lines[p.1]? with _ | line
      · simp [hl]
      · rcases hp : parseTransLine line with _ | ⟨sp, tx⟩ <;> simp [hl, hp]
    rw [List.map_congr_left (fun p _ => h p)]
    have h2 : convs.enum.map (fun p => p.2.timestamp) =
        (convs.enum.map Prod.snd).map (fun e => e.timestamp) := by
      rw [List.map_map]; rfl
    rw [h2, List.enum_map_snd]

end Mnemosync

namespace Mnemosync

/-- C5: resolving a bare weekday name (index `w`, 0 = Sunday) gives the next
future occurrence of that weekday: strictly after `now`, at most seven days
ahead, landing on weekday `w`, with no earlier day strictly after `now` on
that weekday — and when `now` itself falls on weekday `w`, the result is
exactly `now + 7`, never `now`. -/
theorem weekday_resolution (w : Nat) (hw : w < 7) (stdParse : String → Option Int)
    (now r : Int)
    (hr : r = parseDateFromText stdParse (String.mk (dayNamesL.getD w [])) now) :
    now < r ∧ r ≤ now + 7 ∧ getDay r = (w : Int) ∧
    (∀ j : Int, now < j → j < r → getDay j ≠ (w : Int)) ∧
    (getDay now = (w : Int) → r = now + 7) := by
  interval_cases w
  · have hr' : r = now + weekdayDelta 0 (getDay now) := hr
    simp only [weekdayDelta, getDay] at hr' ⊢
    split at hr' <;>
      refine ⟨by omega, by omega, by omega, fun j h1 h2 => by omega,
              fun h => by omega⟩
  · have hr' : r = now + weekdayDelta 1 (getDay now) := hr
    simp only [weekdayDelta, getDay] at hr' ⊢
    split at hr' <;>
      refine ⟨by omega, by omega, by omega, fun j h1 h2 => by omega,
              fun h => by omega⟩
  · have hr' : r = now + weekdayDelta 2 (getDay now) := hr
    simp only [weekdayDelta, getDay] at hr' ⊢
    split at hr' <;>
      refine ⟨by omega, by omega, by omega, fun j h1 h2 => by omega,
              fun h => by omega⟩
  · have hr' : r = now + weekdayDelta 3 (getDay now) := hr
    simp only [weekdayDelta, getDay] at hr' ⊢
    split at hr' <;>
      refine ⟨by omega, by omega, by omega, fun j h1 h2 => by omega,
              fun h => by omega⟩
  · have hr' : r = now + weekdayDelta 4 (getDay now) := hr
    simp only [weekdayDelta, getDay] at hr' ⊢
    split at hr' <;>
      refine ⟨by omega, by omega, by omega, fun j h1 h2 => by omega,
              fun h => by omega⟩
  · have hr' : r = now + weekdayDelta 5 (getDay now) := hr
    simp only [weekdayDelta, getDay] at hr' ⊢
    split at hr' <;>
      refine ⟨by omega, by omega, by omega, fun j h1 h2 => by omega,
              fun h => by omega⟩
  · have hr' : r = now + weekdayDelta 6 (getDay now) := hr
    simp only [weekdayDelta, getDay] at hr' ⊢
    split at hr' <;>
      refine ⟨by omega, by omega, by omega, fun j h1 h2 => by omega,
              fun h => by omega⟩

/-- C5 (witness): day 4 (1970-01-05) is a Monday; resolving "monday" on it
yields day 11, the following Monday, seven days later. -/
theorem weekday_resolution_witness :
    getDay 4 = 1 ∧
    parseDateFromText (fun _ => none) "monday" 4 = 11 := by
  constructor
  · decide
  · have h := weekday_resolution 1 (by omega) (fun _ => none) 4
      (parseDateFromText (fun _ => none) "monday" 4) rfl
    have h5 := h.2.2.2.2 (by decide)
    omega

end Mnemosync

namespace Mnemosync

/-- C6: `parseDateFromText` is a total function (it is defined for every
input string and reference date, mirroring the source, which has no throw
path), and on text matching none of the recognized patterns — no relative
keyword, no weekday name, no month-day or day-month match, and no
host-parseable generic date — it resolves to `now` ("today"). -/
theorem parseDate_total_fallback (stdParse : String → Option Int)
    (text : String) (now : Int)
    (h1 : subL "today".toList (lowerL text.toList) = false)
    (h2 : subL "tomorrow".toList (lowerL text.toList) = false)
    (h3 : subL "day after tomorrow".toList (lowerL text.toList) = false)
    (h4 : subL "next week".toList (lowerL text.toList) = false)
    (h5 : subL "next month".toList (lowerL text.toList) = false)
    (h6 : findWeekday (lowerL text.toList) = none)
    (h7 : monthDayScan text.toList = none)
    (h8 : dayMonthScan text.toList = none)
    (h9 : stdParse text = none) :
    parseDateFromText stdParse text now = now := by
  unfold parseDateFromText
  simp only [h1, h2, h3, h4, h5, h6, h7, h8, h9, Bool.false_eq_true, if_false]

/-- C6 (witness): the unparseable text "hello world" resolves to the
reference date itself. -/
theorem parseDate_total_fallback_witness :
    parseDateFromText (fun _ => none) "hello world" 42 = 42 :=
  parseDate_total_fallback (fun _ => none) "hello world" 42
    (by decide) (by decide) (by decide) (by decide) (by decide)
    (by decide) (by decide) (by decide) rfl

end Mnemosync
